import Mathlib

/-!
# Verification of the zpi persistent-memory subsystem

Shallow embedding of `packages/coding-agent/src/core/memory.ts` and
`packages/coding-agent/src/core/tools/memory.ts`.

Pure string/list computations are translated directly.  Filesystem reads and
`JSON.parse` are modelled by an explicit `FileReadResult` state; tool
operations that load, mutate and save a collection are modelled as functions
from the loaded collection(s) to the result plus the post-call collection(s)
and a flag recording whether a save was performed.

JavaScript primitives used by the source are modelled explicitly:
`String.prototype.toLowerCase`, `split`, `includes`, `replace` (first
occurrence), `padStart`, `parseInt`, `Array.prototype.findIndex`, spread-`Set`
deduplication, and insertion-ordered `Map` (`set` on an existing key updates
in place, `delete` followed by `set` moves the entry to the end).
-/

namespace Zpi

/-! ## JavaScript primitive models -/

/-- Model of `Array.prototype.flatMap` / template concatenation of mapped lists. -/
def flatMapL (f : α → List β) : List α → List β
  | [] => []
  | a :: l => f a ++ flatMapL f l

/-- Helper for `[...new Set(l)]`: deduplicate keeping the first occurrence of each
element, preserving first-seen order. -/
def jsDedupAux [BEq α] (seen : List α) : List α → List α
  | [] => []
  | a :: l => if seen.contains a then jsDedupAux seen l else a :: jsDedupAux (seen ++ [a]) l

/-- Model of `[...new Set(l)]` (insertion-ordered set). -/
def jsDedup [BEq α] (l : List α) : List α := jsDedupAux [] l

/-- Model of `Array.prototype.join(sep)`. -/
def joinSep (sep : String) : List String → String
  | [] => ""
  | [s] => s
  | s :: rest => s ++ sep ++ joinSep sep rest

/-- Split a character list at every character satisfying `p`, keeping empty
segments (so that a subsequent emptiness filter models `split(/p+/)`). -/
def splitByAux (p : Char → Bool) : List Char → List Char → List (List Char)
  | [], acc => [acc.reverse]
  | c :: cs, acc => if p c then acc.reverse :: splitByAux p cs [] else splitByAux p cs (c :: acc)

/-- Model of `String.prototype.split` on whitespace characters.  Composed with the
source's `.filter(Boolean)` this coincides with `split(/\s+/).filter(Boolean)`
(both yield the maximal non-empty runs of non-whitespace characters). -/
def jsSplitWs (s : String) : List String :=
  (splitByAux Char.isWhitespace s.data []).map fun l => ⟨l⟩

/-- Model of `String.prototype.split(sep)` for a one-character separator. -/
def jsSplitOn (sep : Char) (s : String) : List String :=
  (splitByAux (fun c => c = sep) s.data []).map fun l => ⟨l⟩

/-- Model of `String.prototype.toLowerCase` (character-wise lowering). -/
def jsToLower (s : String) : String := ⟨s.data.map Char.toLower⟩

/-- Helper for `String.prototype.includes`. -/
def containsAux (w : List Char) : List Char → Bool
  | [] => w.isEmpty
  | c :: cs => w.isPrefixOf (c :: cs) || containsAux w cs

/-- Model of `s.includes(w)`: `w` occurs as a contiguous substring of `s`. -/
def jsIncludes (s w : String) : Bool := containsAux w.data s.data

/-- Helper for `String.prototype.replace` with a string pattern: replace the
first occurrence of `pat` with the empty string. -/
def replaceFirstAux (pat : List Char) : List Char → List Char
  | [] => []
  | c :: cs =>
    if pat.isPrefixOf (c :: cs) then List.drop pat.length (c :: cs)
    else c :: replaceFirstAux pat cs

/-- Model of `s.replace(pat, "")` — JavaScript string-pattern `replace` rewrites only
the first occurrence. -/
def replaceFirst (pat s : String) : String := ⟨replaceFirstAux pat.data s.data⟩

/-- Digit run to number, as accumulated by `parseInt`. -/
def digitsToNat (ds : List Char) : Nat := ds.foldl (fun acc c => acc * 10 + (c.toNat - 48)) 0

/-- Sign-and-digits step of `parseInt`. -/
def parseIntCore (cs : List Char) (sign : Int) : Option Int :=
  let ds := cs.takeWhile Char.isDigit
  if ds = [] then none else some (sign * (digitsToNat ds : Int))

/-- Model of `Number.parseInt(s, 10)`: skip leading whitespace, optional sign, then the
maximal leading digit run; `NaN` (modelled as `none`) if there are no digits. -/
def parseIntJS (s : String) : Option Int :=
  let cs := s.data.dropWhile Char.isWhitespace
  if cs.head? = some '-' then parseIntCore cs.tail (-1)
  else if cs.head? = some '+' then parseIntCore cs.tail 1
  else parseIntCore cs 1

/-- Model of `String.prototype.padStart(3, "0")`. -/
def padStart3 (s : String) : String :=
  if 3 ≤ s.length then s else (⟨List.replicate (3 - s.length) '0'⟩ : String) ++ s

/-- Model of `Array.prototype.findIndex`. -/
def findIndexJS (p : α → Bool) : List α → Option Nat
  | [] => none
  | a :: l => if p a then some 0 else (findIndexJS p l).map (· + 1)

/-- One global-regex single-character `replace`, e.g. `.replace(/&/g, "&amp;")`.
A single left-to-right pass; replacement text is not rescanned. -/
def replaceCharAll (c : Char) (rep : List Char) (l : List Char) : List Char :=
  flatMapL (fun d => if d = c then rep else [d]) l

/-- Model of `Array.prototype.slice(-10)`. -/
def jsSliceNeg10 (l : List α) : List α := l.drop (l.length - 10)

/-! ## Data model (`memory.ts`, Types section) -/

/-- The `SemanticMemory.category` union type. -/
inductive Category : Type
  | preference
  | architecture
  | convention
  | fact
  deriving DecidableEq, Inhabited, Repr

/-- String interpolation of a category value. -/
def Category.str : Category → String
  | .preference => "preference"
  | .architecture => "architecture"
  | .convention => "convention"
  | .fact => "fact"

structure ProceduralMemory : Type where
  id : String
  name : String
  trigger : String
  steps : List String
  tags : List String
  created : String
  updated : String
  sourceSession : String
  deriving DecidableEq, Inhabited, Repr

structure Reflection : Type where
  mistakes : List String
  lessons : List String
  deriving DecidableEq, Inhabited, Repr

structure EpisodicMemory : Type where
  id : String
  summary : String
  details : List String
  reflection : Option Reflection
  tags : List String
  date : String
  sourceSession : String
  deriving DecidableEq, Inhabited, Repr

structure SemanticMemory : Type where
  id : String
  category : Category
  text : String
  tags : List String
  created : String
  sourceSession : String
  deriving DecidableEq, Inhabited, Repr

/-- Records with a `tags: string[]` field (the `T extends { tags: string[] }`
bound of `searchMemories`). -/
class HasTags (T : Type) where
  tags : T → List String

instance : HasTags ProceduralMemory := ⟨ProceduralMemory.tags⟩
instance : HasTags EpisodicMemory := ⟨EpisodicMemory.tags⟩
instance : HasTags SemanticMemory := ⟨SemanticMemory.tags⟩

/-- Records with an `id: string` field (the `{ id: string }` bound of
`generateId` and of the delete/read loops). -/
class HasId (T : Type) where
  getId : T → String

instance : HasId ProceduralMemory := ⟨ProceduralMemory.id⟩
instance : HasId EpisodicMemory := ⟨EpisodicMemory.id⟩
instance : HasId SemanticMemory := ⟨SemanticMemory.id⟩

/-! ## Storage (`loadStore`) -/

/-- JSON values, as produced by a successful `JSON.parse`. -/
inductive JValue : Type
  | null
  | bool (b : Bool)
  | num (n : Int)
  | str (s : String)
  | arr (elems : List JValue)
  | obj (fields : List (String × JValue))

/-- Outcome of `existsSync` + `readFileSync` + `JSON.parse` on the backing
file: the file is absent, its contents are not syntactically valid JSON
(`JSON.parse` throws), or `JSON.parse` yields a JSON value. -/
inductive FileReadResult : Type
  | missing
  | unparseable
  | parsed (v : JValue)

/-- The JSON form of the empty collection `{ memories: [] }`. -/
def emptyStoreJson : JValue := .obj [("memories", .arr [])]

/-- Embedding of `loadStore` (`memory.ts` lines 128–139): return `{ memories: [] }` when
the file does not exist or `JSON.parse` throws; otherwise return whatever
`JSON.parse` produced — the `as MemoryStore<T>` cast performs no runtime
shape validation. -/
def loadStore : FileReadResult → JValue
  | .missing => emptyStoreJson
  | .unparseable => emptyStoreJson
  | .parsed v => v

/-- Modelled from the spec: the "expected collection shape"
(`{ "memories": T[] }`, §6) — an object with a `memories` field holding an
array.  The source performs no such check; this definition only states the
claim's hypothesis. -/
def isCollectionShape : JValue → Bool
  | .obj fields => fields.any fun f => f.1 == "memories" &&
      (match f.2 with | .arr _ => true | _ => false)
  | _ => false

/-! ## Identifier allocation (`generateId`) -/

/-- Embedding of `generateId` (`memory.ts` lines 147–154): for each record, delete the
first occurrence of `` `${prefix}_` `` from its id, `parseInt` the result,
track the maximum over the non-`NaN` values (starting from 0), and return
`` `${prefix}_${String(max + 1).padStart(3, "0")}` ``. -/
def generateId {T : Type} [HasId T] (pfx : String) (store : List T) : String :=
  let maxN : Int := store.foldl
    (fun acc m =>
      match parseIntJS (replaceFirst (pfx ++ "_") (HasId.getId m)) with
      | some num => if acc < num then num else acc
      | none => acc)
    0
  pfx ++ "_" ++ padStart3 (toString (maxN + 1))

/-! ## Search (`searchMemories`) -/

/-- Embedding of `searchMemories` (`memory.ts` lines 178–191): lower-case the query, split
it on whitespace, drop empty tokens (`.filter(Boolean)`), and keep the records
for which every token is a substring of
`` `${text} ${tagText}` `` where `text` is the lower-cased projection and
`tagText` the lower-cased space-join of the tags. -/
def searchMemories {T : Type} [HasTags T] (memories : List T) (query : String)
    (getText : T → String) : List T :=
  let lower := jsToLower query
  let queryWords := (jsSplitWs lower).filter fun w => w != ""
  memories.filter fun m =>
    let text := jsToLower (getText m)
    let tagText := jsToLower (joinSep " " (HasTags.tags m))
    let combined := text ++ " " ++ tagText
    queryWords.all fun w => jsIncludes combined w

/-! ## Compaction (`compactEpisodicMemories`)

`tagGroups` is a JavaScript `Map` iterated in insertion order; it is modelled
as an association list.  `Map.delete(key)` followed by `Map.set(newKey, …)`
removes the entry and re-inserts it at the end; `Map.set` on a key that is
still present overwrites that entry in place. -/

/-- Model of `Map.prototype.set`: overwrite in place if the key is present, otherwise
append at the end. -/
def mapSet (gs : List (String × List EpisodicMemory)) (key : String)
    (v : List EpisodicMemory) : List (String × List EpisodicMemory) :=
  if gs.any (fun kg => kg.1 == key) then
    gs.map fun kg => if kg.1 == key then (key, v) else kg
  else gs ++ [(key, v)]

/-- Model of `Map.prototype.delete` (keys are unique). -/
def mapDelete (gs : List (String × List EpisodicMemory)) (key : String) :
    List (String × List EpisodicMemory) :=
  gs.filter fun kg => kg.1 != key

/-- The inner `for (const [key, group] of tagGroups)` loop with `break`: the
first cluster whose key (split on `","` into a tag set) intersects the
record's tags. -/
def findCluster (m : EpisodicMemory) :
    List (String × List EpisodicMemory) → Option (String × List EpisodicMemory)
  | [] => none
  | (key, group) :: rest =>
    if m.tags.any (fun t => (jsSplitOn ',' key).contains t) then some (key, group)
    else findCluster m rest

/-- One iteration of the outer loop of `compactEpisodicMemories`
(lines 201–217): place one record into the running cluster map. -/
def placeRecord (gs : List (String × List EpisodicMemory)) (m : EpisodicMemory) :
    List (String × List EpisodicMemory) :=
  match findCluster m gs with
  | some (key, group) =>
    let mergedKey := joinSep "," (jsDedup (jsSplitOn ',' key ++ m.tags))
    mapSet (mapDelete gs key) mergedKey (group ++ [m])
  | none =>
    let k0 := joinSep "," m.tags
    mapSet gs (if k0 = "" then m.id else k0) [m]

/-- The cluster map after the whole left-to-right pass. -/
def buildGroups (memories : List EpisodicMemory) : List (String × List EpisodicMemory) :=
  memories.foldl placeRecord []

/-- Merge resolution for a cluster of size ≥ 2 (lines 225–242). -/
def consolidateGroup (group : List EpisodicMemory) : EpisodicMemory :=
  let allDetails := flatMapL (fun m => m.details) group
  let allTags := jsDedup (flatMapL (fun m => m.tags) group)
  let allMistakes := flatMapL (fun m => (m.reflection.map Reflection.mistakes).getD []) group
  let allLessons := flatMapL (fun m => (m.reflection.map Reflection.lessons).getD []) group
  let summaries := group.map fun m => m.summary
  { id := (group.headD default).id
    summary := "Consolidated: " ++ joinSep "; " summaries
    details := jsDedup allDetails
    reflection :=
      if allMistakes.length > 0 || allLessons.length > 0 then
        some { mistakes := jsDedup allMistakes, lessons := jsDedup allLessons }
      else none
    tags := allTags
    date := (group.getLastD default).date
    sourceSession := (group.getLastD default).sourceSession }

/-- Embedding of `compactEpisodicMemories` (`memory.ts` lines 197–245). -/
def compactEpisodicMemories (memories : List EpisodicMemory) : List EpisodicMemory :=
  if memories.length ≤ 1 then memories
  else
    flatMapL
      (fun kg => if kg.2.length ≤ 1 then kg.2 else [consolidateGroup kg.2])
      (buildGroups memories)

/-! ## System prompt section (`buildMemoryPromptSection`, `escapeXml`) -/

/-- Embedding of `escapeXml` (`memory.ts` lines 360–367): five sequential global
single-character replaces, `&` first. -/
def escapeXml (s : String) : String :=
  ⟨replaceCharAll '\'' "&apos;".data
    (replaceCharAll '"' "&quot;".data
      (replaceCharAll '>' "&gt;".data
        (replaceCharAll '<' "&lt;".data
          (replaceCharAll '&' "&amp;".data s.data))))⟩

/-- The `<memory …>` line pushed for each semantic record (line 323). -/
def semanticLine (m : SemanticMemory) : String :=
  "  <memory id=\"" ++ m.id ++ "\" category=\"" ++ m.category.str ++ "\">"
    ++ escapeXml m.text ++ "</memory>"

/-- The `<procedure …>` line pushed for each procedural record
(lines 331–334). -/
def proceduralLine (m : ProceduralMemory) : String :=
  let steps := joinSep "; " (m.steps.enum.map fun p => toString (p.1 + 1) ++ ". " ++ p.2)
  "  <procedure id=\"" ++ m.id ++ "\" name=\"" ++ escapeXml m.name ++ "\" trigger=\""
    ++ escapeXml m.trigger ++ "\">" ++ escapeXml steps ++ "</procedure>"

/-- The `<episode …>` line pushed for each recent episodic record
(lines 343–350). -/
def episodicLine (m : EpisodicMemory) : String :=
  let details := joinSep "; " m.details
  let text := details ++
    (match m.reflection with
     | some r => if r.lessons.length > 0 then " | Lessons: " ++ joinSep "; " r.lessons else ""
     | none => "")
  "  <episode id=\"" ++ m.id ++ "\" date=\"" ++ m.date ++ "\" summary=\""
    ++ escapeXml m.summary ++ "\">" ++ escapeXml text ++ "</episode>"

/-- The block returned when all three collections are empty (lines 286–292). -/
def emptyPromptBlock : String :=
  "\n\n<memory_system>\nYou have a persistent memory system that stores knowledge across sessions.\nCurrently no memories are stored. Use the memory_write tool to save:\n1. Procedural memories when the user guides you through a multi-step workflow.\n2. Semantic memories when the user states a preference, rule, correction, or fact.\n3. Episodic memories when a significant task completes.\n</memory_system>"

/-- The fixed instructional preamble pushed first (lines 297–318). -/
def promptPreamble : String :=
  "\n\n<memory_system>\nYou have a persistent memory system that stores knowledge across sessions.\nYou MUST use these memories to improve your responses. Do not ask the user\nto repeat things they have already taught you.\n\nAUTOMATIC MEMORY CAPTURE RULES:\n1. When the user guides you through a multi-step workflow (correcting steps,\n   adding steps, reordering), save it as a PROCEDURAL memory using the\n   memory_write tool. Extract the general workflow, not the specific instance.\n2. When the user states a preference or rule (\"always do X\", \"never do Y\",\n   \"I prefer X\"), save it as a SEMANTIC memory immediately.\n3. When the user corrects you or you make a mistake, save the lesson as a\n   SEMANTIC memory with category \"convention\".\n4. When a significant task completes, save a summary as an EPISODIC memory.\n5. If you detect a conflict with an existing memory, ask the user: \"You\n   previously told me [old]. You are now saying [new]. Should I update this?\"\n   Only update after confirmation.\n\nTIMESTAMP AWARENESS:\nEach user message includes a timestamp. Use these to detect time gaps.\nIf the user returns after a significant gap (>10 minutes), acknowledge it\nnaturally if relevant. Do not force it if the gap is not relevant."

/-- Embedding of `buildMemoryPromptSection` (`memory.ts` lines 280–358), as a function of
the three loaded collections (the source loads them from disk via
`loadStore`).  `parts` is assembled exactly as the sequence of `parts.push`
calls and joined with `"\n"`. -/
def buildMemoryPromptSection (semantic : List SemanticMemory)
    (procedural : List ProceduralMemory) (episodic : List EpisodicMemory) : String :=
  if semantic.length = 0 ∧ procedural.length = 0 ∧ episodic.length = 0 then
    emptyPromptBlock
  else
    let parts : List String :=
      [promptPreamble]
      ++ (if semantic.length > 0 then
            ["\n<semantic_memories>"] ++ semantic.map semanticLine ++ ["</semantic_memories>"]
          else [])
      ++ (if procedural.length > 0 then
            ["\n<procedural_memories>"] ++ procedural.map proceduralLine
              ++ ["</procedural_memories>"]
          else [])
      ++ (if episodic.length > 0 then
            ["\n<recent_episodic_memories>"]
              ++ (jsSliceNeg10 episodic).map episodicLine
              ++ ["</recent_episodic_memories>"]
          else [])
      ++ ["\n</memory_system>"]
    joinSep "\n" parts

/-! ## Tool operations (`tools/memory.ts`)

Each tool call loads the collection(s) it needs, mutates in memory, and saves.
The load/save round trip is modelled by passing the loaded collection(s) in
and returning the post-call collection(s) plus a `saved` flag recording
whether `saveStore` was invoked. -/

/-- The `details.action` values produced by `memory_write`. -/
inductive WriteAction : Type
  | created
  | updated
  | duplicate
  deriving DecidableEq, Repr

/-- Result of one `memory_write` call on the procedural collection. -/
structure ProcWriteOut : Type where
  text : String
  details : Option (WriteAction × String)
  store : List ProceduralMemory
  saved : Bool
  deriving DecidableEq, Repr

/-- Result of one `memory_write` call on the semantic collection. -/
structure SemWriteOut : Type where
  text : String
  details : Option (WriteAction × String)
  store : List SemanticMemory
  saved : Bool
  deriving DecidableEq, Repr

/-- Embedding of `store.memories.find((m) => m.name === params.name)` followed by in-place
mutation of the found record (lines 115–121): returns the updated list and the
matched record's id, or `none` when no record has the name. -/
def updateFirstProc (name trigger : String) (steps tags : List String) (now : String) :
    List ProceduralMemory → Option (List ProceduralMemory × String)
  | [] => none
  | m :: rest =>
    if m.name == name then
      some ({ m with
                steps := steps
                trigger := trigger
                tags := jsDedup (m.tags ++ tags)
                updated := now } :: rest, m.id)
    else (updateFirstProc name trigger steps tags now rest).map fun r => (m :: r.1, r.2)

/-- The `params.type === "procedural"` branch of `memoryWriteTool.execute`
(`tools/memory.ts` lines 107–143).  Optional parameters are `Option`s;
`!params.name`, `!params.trigger` and `!params.steps?.length` are the
JavaScript falsiness checks. -/
def memoryWriteProcedural (store : List ProceduralMemory)
    (name? trigger? : Option String) (steps? tags? : Option (List String))
    (now sessionId : String) : ProcWriteOut :=
  let tags := tags?.getD []
  match name?, trigger?, steps? with
  | some name, some trigger, some steps =>
    if name = "" ∨ trigger = "" ∨ steps = [] then
      { text := "Error: procedural memory requires name, trigger, and steps."
        details := none, store := store, saved := false }
    else
      match updateFirstProc name trigger steps tags now store with
      | some (store1, existingId) =>
        { text := "Updated procedural memory [" ++ existingId ++ "] \"" ++ name ++ "\"."
          details := some (.updated, existingId), store := store1, saved := true }
      | none =>
        let id := generateId "proc" store
        { text := "Saved procedural memory [" ++ id ++ "] \"" ++ name ++ "\"."
          details := some (.created, id)
          store := store ++ [{ id := id, name := name, trigger := trigger, steps := steps,
                               tags := tags, created := now, updated := now,
                               sourceSession := sessionId }]
          saved := true }
  | _, _, _ =>
    { text := "Error: procedural memory requires name, trigger, and steps."
      details := none, store := store, saved := false }

/-- The `params.type === "semantic"` branch of `memoryWriteTool.execute`
(`tools/memory.ts` lines 174–205). -/
def memoryWriteSemantic (store : List SemanticMemory)
    (category? : Option Category) (text? : Option String) (tags? : Option (List String))
    (now sessionId : String) : SemWriteOut :=
  let tags := tags?.getD []
  match text?, category? with
  | some text, some category =>
    if text = "" then
      { text := "Error: semantic memory requires text and category."
        details := none, store := store, saved := false }
    else
      match store.find? (fun m => m.category == category
          && jsToLower m.text == jsToLower text) with
      | some existing =>
        { text := "This semantic memory already exists [" ++ existing.id ++ "]."
          details := some (.duplicate, existing.id), store := store, saved := false }
      | none =>
        let id := generateId "sem" store
        { text := "Saved semantic memory [" ++ id ++ "] (" ++ category.str ++ "): \""
                    ++ text ++ "\"."
          details := some (.created, id)
          store := store ++ [{ id := id, category := category, text := text, tags := tags,
                               created := now, sourceSession := sessionId }]
          saved := true }
  | _, _ =>
    { text := "Error: semantic memory requires text and category."
      details := none, store := store, saved := false }

/-- Result of one `memory_delete` call. -/
structure DeleteOut : Type where
  text : String
  deleted : Bool
  procedural : List ProceduralMemory
  episodic : List EpisodicMemory
  semantic : List SemanticMemory
  saved : Bool
  deriving DecidableEq, Repr

/-- Embedding of `memoryDeleteTool.execute` (`tools/memory.ts` lines 395–416): check the
three collections in the fixed order procedural, episodic, semantic; splice
out and save at the first index match, else report not-found with no save. -/
def memoryDelete (procedural : List ProceduralMemory) (episodic : List EpisodicMemory)
    (semantic : List SemanticMemory) (targetId : String) : DeleteOut :=
  match findIndexJS (fun m => m.id == targetId) procedural with
  | some idx =>
    { text := "Deleted memory [" ++ targetId ++ "] from procedural."
      deleted := true, procedural := procedural.eraseIdx idx, episodic := episodic,
      semantic := semantic, saved := true }
  | none =>
    match findIndexJS (fun m => m.id == targetId) episodic with
    | some idx =>
      { text := "Deleted memory [" ++ targetId ++ "] from episodic."
        deleted := true, procedural := procedural, episodic := episodic.eraseIdx idx,
        semantic := semantic, saved := true }
    | none =>
      match findIndexJS (fun m => m.id == targetId) semantic with
      | some idx =>
        { text := "Deleted memory [" ++ targetId ++ "] from semantic."
          deleted := true, procedural := procedural, episodic := episodic,
          semantic := semantic.eraseIdx idx, saved := true }
      | none =>
        { text := "No memory found with ID \"" ++ targetId ++ "\"."
          deleted := false, procedural := procedural, episodic := episodic,
          semantic := semantic, saved := false }

/-! ## Specification-side definitions

These follow the words of the spec (`spec.md` §4.4, §4.7) rather than the
source, and are compared with the source-derived definitions above in the
refinement theorems. -/

/-- Spec §4.4: "every token is a substring of the concatenation of its
projected text and its tags (lower-cased, space-joined)" — the lower-casing is
applied to the whole concatenation. -/
def searchSpec {T : Type} [HasTags T] (memories : List T) (query : String)
    (getText : T → String) : List T :=
  let tokens := (jsSplitWs (jsToLower query)).filter fun w => w != ""
  memories.filter fun m =>
    tokens.all fun w =>
      jsIncludes (jsToLower (getText m ++ " " ++ joinSep " " (HasTags.tags m))) w

/-- Spec §4.7: one free-text character escaped "for the five reserved markup
characters (`& < > " '`)". -/
def escChar (c : Char) : List Char :=
  if c = '&' then "&amp;".data
  else if c = '<' then "&lt;".data
  else if c = '>' then "&gt;".data
  else if c = '"' then "&quot;".data
  else if c = '\'' then "&apos;".data
  else [c]

/-- Spec §4.7: character-wise escaping of a free-text field. -/
def escapeSpec (s : String) : String := ⟨flatMapL escChar s.data⟩

/-- Spec §4.7: "only the most recent 10 episodes in collection order" — the
last ten records of the collection, kept in collection order. -/
def lastN10 (l : List α) : List α := (l.reverse.take 10).reverse

/-- Spec-side rendering of one fact (escaping per `escapeSpec`). -/
def specSemanticLine (m : SemanticMemory) : String :=
  "  <memory id=\"" ++ m.id ++ "\" category=\"" ++ m.category.str ++ "\">"
    ++ escapeSpec m.text ++ "</memory>"

/-- Spec-side rendering of one procedure (escaping per `escapeSpec`). -/
def specProceduralLine (m : ProceduralMemory) : String :=
  let steps := joinSep "; " (m.steps.enum.map fun p => toString (p.1 + 1) ++ ". " ++ p.2)
  "  <procedure id=\"" ++ m.id ++ "\" name=\"" ++ escapeSpec m.name ++ "\" trigger=\""
    ++ escapeSpec m.trigger ++ "\">" ++ escapeSpec steps ++ "</procedure>"

/-- Spec-side rendering of one episode (escaping per `escapeSpec`). -/
def specEpisodicLine (m : EpisodicMemory) : String :=
  let details := joinSep "; " m.details
  let text := details ++
    (match m.reflection with
     | some r => if r.lessons.length > 0 then " | Lessons: " ++ joinSep "; " r.lessons else ""
     | none => "")
  "  <episode id=\"" ++ m.id ++ "\" date=\"" ++ m.date ++ "\" summary=\""
    ++ escapeSpec m.summary ++ "\">" ++ escapeSpec text ++ "</episode>"

/-- Spec §4.7: the full context block — fixed preamble, then three optional
tagged sections (all facts, all procedures, only the most recent 10 episodes
in collection order), every free-text field escaped for the five reserved
markup characters. -/
def promptSpec (semantic : List SemanticMemory) (procedural : List ProceduralMemory)
    (episodic : List EpisodicMemory) : String :=
  if semantic.length = 0 ∧ procedural.length = 0 ∧ episodic.length = 0 then
    emptyPromptBlock
  else
    let parts : List String :=
      [promptPreamble]
      ++ (if semantic.length > 0 then
            ["\n<semantic_memories>"] ++ semantic.map specSemanticLine
              ++ ["</semantic_memories>"]
          else [])
      ++ (if procedural.length > 0 then
            ["\n<procedural_memories>"] ++ procedural.map specProceduralLine
              ++ ["</procedural_memories>"]
          else [])
      ++ (if episodic.length > 0 then
            ["\n<recent_episodic_memories>"]
              ++ (lastN10 episodic).map specEpisodicLine
              ++ ["</recent_episodic_memories>"]
          else [])
      ++ ["\n</memory_system>"]
    joinSep "\n" parts

/-! ## Concrete records used in the claims -/

/-- Episode with tag set `{a}` (claim C1's first record). -/
def epA : EpisodicMemory :=
  { id := "ep_001", summary := "first", details := ["d1"], reflection := none,
    tags := ["a"], date := "2024-01-01", sourceSession := "s1" }

/-- Episode with tag set `{b}` (claim C1's second record). -/
def epB : EpisodicMemory :=
  { id := "ep_002", summary := "second", details := ["d2"], reflection := none,
    tags := ["b"], date := "2024-01-02", sourceSession := "s2" }

/-- Episode with tag set `{a,b}` (claim C1's third record). -/
def epAB : EpisodicMemory :=
  { id := "ep_003", summary := "third", details := ["d3"], reflection := none,
    tags := ["a", "b"], date := "2024-01-03", sourceSession := "s3" }

/-- What the code actually produces for the `{a}`/`{a,b}` cluster of
`[epA, epB, epAB]`: the consolidation of `epA` and `epAB`. -/
def epMergedA_AB : EpisodicMemory :=
  { id := "ep_001", summary := "Consolidated: first; third", details := ["d1", "d3"],
    reflection := none, tags := ["a", "b"], date := "2024-01-03", sourceSession := "s3" }

/-- The single consolidated record produced when `epAB` comes first. -/
def epMergedAll : EpisodicMemory :=
  { id := "ep_003", summary := "Consolidated: third; first; second",
    details := ["d3", "d1", "d2"], reflection := none, tags := ["a", "b"],
    date := "2024-01-02", sourceSession := "s2" }

/-- Episode tagged `{a}` (claim C6). -/
def efA1 : EpisodicMemory :=
  { id := "ef_001", summary := "alpha", details := [], reflection := none,
    tags := ["a"], date := "2024-02-01", sourceSession := "t1" }

/-- Episode tagged `{b}` (claim C6). -/
def efB : EpisodicMemory :=
  { id := "ef_002", summary := "beta", details := [], reflection := none,
    tags := ["b"], date := "2024-02-02", sourceSession := "t2" }

/-- A second episode tagged `{a}` (claim C6). -/
def efA2 : EpisodicMemory :=
  { id := "ef_003", summary := "gamma", details := [], reflection := none,
    tags := ["a"], date := "2024-02-03", sourceSession := "t3" }

/-- The consolidation of `efA1` and `efA2`. -/
def efMerged : EpisodicMemory :=
  { id := "ef_001", summary := "Consolidated: alpha; gamma", details := [],
    reflection := none, tags := ["a"], date := "2024-02-03", sourceSession := "t3" }

/-- A procedure whose name does not collide (C10 witness). -/
def procOther : ProceduralMemory :=
  { id := "proc_001", name := "other", trigger := "t", steps := ["s"], tags := [],
    created := "c1", updated := "u1", sourceSession := "q1" }

/-- The update target of the C10 witness. -/
def procTarget : ProceduralMemory :=
  { id := "proc_002", name := "build", trigger := "old", steps := ["old"], tags := ["x"],
    created := "c2", updated := "u2", sourceSession := "q2" }

/-! ## Shared lemmas -/

/-- Membership in `flatMapL`. -/
theorem mem_flatMapL {f : α → List β} {l : List α} {x : β} :
    x ∈ flatMapL f l ↔ ∃ a ∈ l, x ∈ f a := by
  induction l with
  | nil => simp [flatMapL]
  | cons a tl ih => simp [flatMapL, ih, List.mem_append]

/-- Lemma: `findCluster` returns an entry of the map. -/
theorem findCluster_mem {m : EpisodicMemory} {gs : List (String × List EpisodicMemory)}
    {kg : String × List EpisodicMemory} (h : findCluster m gs = some kg) : kg ∈ gs := by
  induction gs with
  | nil => simp [findCluster] at h
  | cons hd tl ih =>
    obtain ⟨key, group⟩ := hd
    unfold findCluster at h
    split at h
    · cases h; exact List.mem_cons_self _ _
    · exact List.mem_cons_of_mem _ (ih h)

/-- Any member of any group of `mapSet gs key v` was in a group of `gs` or
in `v`. -/
theorem mem_group_mapSet {gs : List (String × List EpisodicMemory)} {key : String}
    {v : List EpisodicMemory} {kg : String × List EpisodicMemory} {x : EpisodicMemory}
    (h : kg ∈ mapSet gs key v) (hx : x ∈ kg.2) :
    (∃ kg' ∈ gs, x ∈ kg'.2) ∨ x ∈ v := by
  unfold mapSet at h
  split at h
  · obtain ⟨kg', hkg', heq⟩ := List.mem_map.mp h
    by_cases hk : (kg'.1 == key) = true
    · rw [if_pos hk] at heq
      subst heq
      right; exact hx
    · rw [if_neg hk] at heq
      subst heq
      left; exact ⟨kg', hkg', hx⟩
  · rcases List.mem_append.mp h with h1 | h2
    · left; exact ⟨kg, h1, hx⟩
    · simp only [List.mem_singleton] at h2
      subst h2
      right; exact hx

/-- Provenance through the clustering pass: any member of any group of the
final map either came from the initial map or is one of the records placed. -/
theorem mem_foldl_placeRecord :
    ∀ (ms : List EpisodicMemory) (gs : List (String × List EpisodicMemory))
      (x : EpisodicMemory) (kg : String × List EpisodicMemory),
      kg ∈ List.foldl placeRecord gs ms → x ∈ kg.2 →
      (∃ kg' ∈ gs, x ∈ kg'.2) ∨ x ∈ ms := by
  intro ms
  induction ms with
  | nil =>
    intro gs x kg h hx
    left; exact ⟨kg, h, hx⟩
  | cons m rest ih =>
    intro gs x kg h hx
    rcases ih (placeRecord gs m) x kg h hx with ⟨kg', hkg', hx'⟩ | hmem
    · unfold placeRecord at hkg'
      rcases hfc : findCluster m gs with _ | ⟨key, group⟩
      · rw [hfc] at hkg'
        rcases mem_group_mapSet hkg' hx' with h1 | h2
        · left; exact h1
        · right
          simp only [List.mem_singleton] at h2
          subst h2
          exact List.mem_cons_self _ _
      · rw [hfc] at hkg'
        rcases mem_group_mapSet hkg' hx' with h1 | h2
        · obtain ⟨kg'', hkg'', hx''⟩ := h1
          left
          exact ⟨kg'', List.mem_of_mem_filter hkg'', hx''⟩
        · rcases List.mem_append.mp h2 with hg | hm
          · left; exact ⟨(key, group), findCluster_mem hfc, hg⟩
          · right
            simp only [List.mem_singleton] at hm
            subst hm
            exact List.mem_cons_self _ _
    · right; exact List.mem_cons_of_mem _ hmem

/-! ## Claim C1 -/

/-- Claim C1 counterexample: for the three episodes with tag sets `{a}`,
`{b}`, `{a,b}` in that input order, `compactEpisodicMemories` does NOT
produce a single consolidated record — it produces two records (the `{a,b}`
record joins the `{a}` cluster, and the `{b}` cluster is never revisited). -/
theorem compact_abc_two_records :
    (compactEpisodicMemories [epA, epB, epAB]).length = 2 ∧
    (compactEpisodicMemories [epA, epB, epAB]).length ≠ 1 := by
  constructor <;> decide

/-- Claim C1 (amended): for input order `{a}`, `{b}`, `{a,b}` the output is
two records — the `{b}` episode unchanged followed by the consolidation of
the `{a}` and `{a,b}` episodes; a single consolidated record of all three
arises when the `{a,b}` episode comes first. -/
theorem compact_abc_result :
    compactEpisodicMemories [epA, epB, epAB] = [epB, epMergedA_AB] ∧
    compactEpisodicMemories [epAB, epA, epB] = [epMergedAll] := by
  constructor <;> decide

/-! ## Claim C2 -/

/-- Claim C2 counterexample: a backing file whose contents are syntactically
valid JSON but not the expected collection shape (here the JSON string
`"oops"`) is returned as-is by `loadStore`, not replaced by
`{ memories: [] }`. -/
theorem loadStore_wrong_shape_passthrough :
    loadStore (.parsed (.str "oops")) ≠ emptyStoreJson ∧
    isCollectionShape (.str "oops") = false :=
  ⟨fun h => JValue.noConfusion h, rfl⟩

/-- Claim C2 (amended): `loadStore` returns the empty collection exactly when
the backing file is missing, when its contents fail JSON parsing, or when the
parsed contents are precisely the empty collection; syntactically valid JSON
of the wrong shape is returned unvalidated. -/
theorem loadStore_empty_iff (f : FileReadResult) :
    loadStore f = emptyStoreJson ↔
      f = .missing ∨ f = .unparseable ∨ f = .parsed emptyStoreJson := by
  cases f <;> simp [loadStore]

/-! ## Claim C3 -/

/-- Claim C3: for every record list and every text projection, searching with
the empty query `""` or the whitespace-only query `"   "` returns the full
input record list unchanged (the token list is empty, so the per-record
conjunction is vacuously true). -/
theorem searchMemories_blank_query {T : Type} [HasTags T] (memories : List T)
    (getText : T → String) :
    searchMemories memories "" getText = memories ∧
    searchMemories memories "   " getText = memories := by
  constructor <;>
  · simp only [searchMemories]
    rw [List.filter_eq_self]
    intro a _
    rfl

/-! ## Claim C4 -/

/-- The `{ id: string }` record shape taken by `generateId`. -/
structure IdRecord : Type where
  id : String
  deriving DecidableEq, Repr

instance : HasId IdRecord := ⟨IdRecord.id⟩

/-- Digit characters are not whitespace. -/
theorem not_ws_of_isDigit {c : Char} (h : c.isDigit = true) : c.isWhitespace = false := by
  cases hw : c.isWhitespace
  · rfl
  · exfalso
    have hc : c = ' ' ∨ c = '\t' ∨ c = '\r' ∨ c = '\n' := by
      simpa [Char.isWhitespace, or_assoc] using hw
    rcases hc with h' | h' | h' | h' <;> subst h' <;> revert h <;> decide

/-- Digit characters are not the minus sign. -/
theorem ne_dash_of_isDigit {c : Char} (h : c.isDigit = true) : c ≠ '-' := by
  intro h'
  subst h'
  revert h
  decide

/-- Digit characters are not the plus sign. -/
theorem ne_plus_of_isDigit {c : Char} (h : c.isDigit = true) : c ≠ '+' := by
  intro h'
  subst h'
  revert h
  decide

/-- Lemma: `takeWhile` keeps a list all of whose elements satisfy the predicate. -/
theorem takeWhile_eq_self_of_all {p : α → Bool} {l : List α} (h : ∀ a ∈ l, p a = true) :
    l.takeWhile p = l := by
  induction l with
  | nil => rfl
  | cons a tl ih =>
    rw [List.takeWhile_cons, if_pos (h a (List.mem_cons_self a tl))]
    exact congrArg (a :: ·) (ih fun x hx => h x (List.mem_cons_of_mem _ hx))

/-- Lemma: `parseInt` on a non-empty all-digit string yields its numeric value. -/
theorem parseIntJS_digits {ds : List Char} (hne : ds ≠ [])
    (hd : ∀ c ∈ ds, c.isDigit = true) :
    parseIntJS ⟨ds⟩ = some (digitsToNat ds : Int) := by
  obtain ⟨d, tl, rfl⟩ := List.exists_cons_of_ne_nil hne
  have hd0 : d.isDigit = true := hd d (List.mem_cons_self _ _)
  show parseIntJS ⟨d :: tl⟩ = _
  unfold parseIntJS
  rw [show (⟨d :: tl⟩ : String).data = d :: tl from rfl, List.dropWhile_cons,
    not_ws_of_isDigit hd0]
  simp only [Bool.false_eq_true, if_false, List.head?_cons]
  rw [if_neg (by simp [ne_dash_of_isDigit hd0]), if_neg (by simp [ne_plus_of_isDigit hd0])]
  unfold parseIntCore
  rw [takeWhile_eq_self_of_all hd]
  rw [if_neg hne]
  simp

/-- Deleting the first occurrence of `pat` from `pat ++ rest` leaves `rest`. -/
theorem replaceFirstAux_self_append {pat rest : List Char} (hne : pat ≠ []) :
    replaceFirstAux pat (pat ++ rest) = rest := by
  obtain ⟨p0, ps, rfl⟩ := List.exists_cons_of_ne_nil hne
  show replaceFirstAux (p0 :: ps) (p0 :: (ps ++ rest)) = rest
  unfold replaceFirstAux
  have hpref : (p0 :: ps).isPrefixOf (p0 :: (ps ++ rest)) = true :=
    List.isPrefixOf_iff_prefix.mpr
      (show (p0 :: ps) <+: p0 :: (ps ++ rest) from List.prefix_append (p0 :: ps) rest)
  rw [if_pos hpref]
  exact List.drop_left (p0 :: ps) rest

/-- Stripping the prefix from a canonically-formed identifier and parsing
yields its numeric suffix. -/
theorem idNum_canonical {pfx : String} {ds : List Char} (hne : ds ≠ [])
    (hd : ∀ c ∈ ds, c.isDigit = true) :
    parseIntJS (replaceFirst (pfx ++ "_") (pfx ++ "_" ++ ⟨ds⟩)) =
      some (digitsToNat ds : Int) := by
  unfold replaceFirst
  rw [show (pfx ++ "_" ++ (⟨ds⟩ : String)).data = (pfx ++ "_").data ++ ds by
        simp [String.data_append],
      replaceFirstAux_self_append (by simp [String.data_append])]
  exact parseIntJS_digits hne hd

/-- The max-tracking fold of `generateId`, evaluated over a collection whose
identifiers are classified entry by entry. -/
theorem generateId_fold {T : Type} [HasId T] (pfx : String) :
    ∀ (entries : List (T × Option (List Char))) (acc : Int),
      (∀ e ∈ entries, match e.2 with
        | some ds => ds ≠ [] ∧ (∀ c ∈ ds, c.isDigit = true) ∧
            HasId.getId e.1 = pfx ++ "_" ++ ⟨ds⟩
        | none => parseIntJS (replaceFirst (pfx ++ "_") (HasId.getId e.1)) = none) →
      (entries.map Prod.fst).foldl
        (fun acc m =>
          match parseIntJS (replaceFirst (pfx ++ "_") (HasId.getId m)) with
          | some num => if acc < num then num else acc
          | none => acc) acc =
      (entries.filterMap Prod.snd).foldl
        (fun acc ds => if acc < (digitsToNat ds : Int) then (digitsToNat ds : Int) else acc)
        acc := by
  intro entries
  induction entries with
  | nil => intro acc _; rfl
  | cons e rest ih =>
    intro acc h
    have he := h e (List.mem_cons_self _ _)
    have hrest := fun x hx => h x (List.mem_cons_of_mem _ hx)
    obtain ⟨m, c⟩ := e
    cases c with
    | some ds =>
      obtain ⟨hne, hd, hid⟩ := he
      simp only [List.map_cons, List.foldl_cons, List.filterMap_cons]
      rw [hid, idNum_canonical hne hd]
      exact ih _ hrest
    | none =>
      simp only [List.map_cons, List.foldl_cons, List.filterMap_cons]
      rw [he]
      exact ih _ hrest

/-- Claim C4 counterexample: an identifier of a foreign shape is NOT ignored.
For the collection containing the single identifier `"42"` (no `proc_`
prefix at all), the claim predicts `proc_001` (foreign identifiers contribute
zero), but `generateId` strips nothing, `parseInt("42")` succeeds, and the
result is `proc_043`. -/
theorem generateId_foreign_counted :
    generateId "proc" [({ id := "42" } : IdRecord)] = "proc_043" ∧
    generateId "proc" [({ id := "42" } : IdRecord)] ≠ "proc_001" := by
  constructor <;> decide

/-- Claim C4 (amended): `generateId` deletes the first occurrence of
`prefix_` from each identifier and parses a leading base-10 integer from the
remainder, ignoring identifiers for which this parse fails (`NaN`), and
returns `prefix_` followed by one plus the maximum (at least 0), zero-padded
to at least three digits.  Over a collection whose identifiers each either
have the canonical form `prefix_<digits>` or strip-and-parse to `NaN` (as
identifiers of the other reserved prefixes such as `sem_003` do), the result
is `prefix_` followed by one plus the maximum canonical numeric suffix.
Identifiers whose stripped remainder begins with digits (e.g. a bare `"42"`)
are not ignored, contrary to the claim. -/
theorem generateId_canonical_ids {T : Type} [HasId T] (pfx : String)
    (entries : List (T × Option (List Char)))
    (h : ∀ e ∈ entries, match e.2 with
      | some ds => ds ≠ [] ∧ (∀ c ∈ ds, c.isDigit = true) ∧
          HasId.getId e.1 = pfx ++ "_" ++ ⟨ds⟩
      | none => parseIntJS (replaceFirst (pfx ++ "_") (HasId.getId e.1)) = none) :
    generateId pfx (entries.map Prod.fst) =
      pfx ++ "_" ++ padStart3 (toString
        ((entries.filterMap Prod.snd).foldl
          (fun acc ds => if acc < (digitsToNat ds : Int) then (digitsToNat ds : Int) else acc)
          0 + 1)) := by
  unfold generateId
  rw [generateId_fold pfx entries 0 h]

/-- The demonstration collection for the C4 witness: a canonical `proc_002`
and a foreign `sem_003`, classified entry by entry. -/
def genIdDemoEntries : List (IdRecord × Option (List Char)) :=
  [({ id := "proc_002" }, some ['0', '0', '2']), ({ id := "sem_003" }, none)]

/-- Witness for claim C4's amended theorem at a concrete collection holding a
canonical `proc_002` and a foreign `sem_003`. -/
theorem generateId_canonical_ids_witness :
    (∀ e ∈ genIdDemoEntries, match e.2 with
      | some ds => ds ≠ [] ∧ (∀ c ∈ ds, c.isDigit = true) ∧
          HasId.getId e.1 = "proc" ++ "_" ++ ⟨ds⟩
      | none => parseIntJS (replaceFirst ("proc" ++ "_") (HasId.getId e.1)) = none) ∧
    generateId "proc" (genIdDemoEntries.map Prod.fst) =
      "proc" ++ "_" ++ padStart3 (toString
        ((genIdDemoEntries.filterMap Prod.snd).foldl
          (fun acc ds => if acc < (digitsToNat ds : Int) then (digitsToNat ds : Int) else acc)
          0 + 1)) := by
  have hh : ∀ e ∈ genIdDemoEntries, match e.2 with
      | some ds => ds ≠ [] ∧ (∀ c ∈ ds, c.isDigit = true) ∧
          HasId.getId e.1 = "proc" ++ "_" ++ ⟨ds⟩
      | none => parseIntJS (replaceFirst ("proc" ++ "_") (HasId.getId e.1)) = none := by
    intro e he
    fin_cases he <;> decide
  exact ⟨hh, generateId_canonical_ids "proc" genIdDemoEntries hh⟩

/-! ## Claim C9 -/

/-- Lemma: `flatMapL` distributes over append. -/
theorem flatMapL_append (f : α → List β) (l1 l2 : List α) :
    flatMapL f (l1 ++ l2) = flatMapL f l1 ++ flatMapL f l2 := by
  induction l1 with
  | nil => rfl
  | cons a tl ih => simp [flatMapL, ih, List.append_assoc]

/-- A single-character global replace distributes over append. -/
theorem replaceCharAll_append (c : Char) (rep x y : List Char) :
    replaceCharAll c rep (x ++ y) = replaceCharAll c rep x ++ replaceCharAll c rep y :=
  flatMapL_append _ _ _

/-- The five escape passes on a one-character string produce the spec's
character-wise escape. -/
theorem escapePasses_single (d : Char) :
    replaceCharAll '\'' "&apos;".data
      (replaceCharAll '"' "&quot;".data
        (replaceCharAll '>' "&gt;".data
          (replaceCharAll '<' "&lt;".data
            (replaceCharAll '&' "&amp;".data [d])))) = escChar d := by
  by_cases h1 : d = '&'
  · subst h1; decide
  by_cases h2 : d = '<'
  · subst h2; decide
  by_cases h3 : d = '>'
  · subst h3; decide
  by_cases h4 : d = '"'
  · subst h4; decide
  by_cases h5 : d = '\''
  · subst h5; decide
  simp [replaceCharAll, flatMapL, escChar, h1, h2, h3, h4, h5]

/-- The composition of the five sequential global replaces of `escapeXml`
equals the spec's character-wise escape. -/
theorem escapePasses_eq (l : List Char) :
    replaceCharAll '\'' "&apos;".data
      (replaceCharAll '"' "&quot;".data
        (replaceCharAll '>' "&gt;".data
          (replaceCharAll '<' "&lt;".data
            (replaceCharAll '&' "&amp;".data l)))) = flatMapL escChar l := by
  induction l with
  | nil => rfl
  | cons d tl ih =>
    have hd : d :: tl = [d] ++ tl := rfl
    rw [hd, replaceCharAll_append, replaceCharAll_append, replaceCharAll_append,
      replaceCharAll_append, replaceCharAll_append, flatMapL_append, ih, escapePasses_single]
    simp [flatMapL]

/-- The source's sequential-replace `escapeXml` equals the spec's
character-wise `escapeSpec`. -/
theorem escapeXml_eq_escapeSpec : escapeXml = escapeSpec := by
  funext s
  exact congrArg String.mk (escapePasses_eq s.data)

/-- Lemma: `slice(-10)` keeps exactly the last ten elements in order. -/
theorem jsSliceNeg10_eq_lastN10 (l : List α) : jsSliceNeg10 l = lastN10 l := by
  simp [jsSliceNeg10, lastN10, List.take_reverse]

/-- The two semantic renderings agree. -/
theorem semanticLine_eq : semanticLine = specSemanticLine := by
  funext m
  simp [semanticLine, specSemanticLine, escapeXml_eq_escapeSpec]

/-- The two procedural renderings agree. -/
theorem proceduralLine_eq : proceduralLine = specProceduralLine := by
  funext m
  simp [proceduralLine, specProceduralLine, escapeXml_eq_escapeSpec]

/-- The two episodic renderings agree. -/
theorem episodicLine_eq : episodicLine = specEpisodicLine := by
  funext m
  simp [episodicLine, specEpisodicLine, escapeXml_eq_escapeSpec]

/-- Claim C9: for every non-empty store state, the prompt context block equals
the spec-side rendering — fixed preamble, optional sections, the episodic
section holding exactly the most recent 10 (or fewer) episodic records in
collection order, and every free-text field escaped for the five reserved
markup characters. -/
theorem buildMemoryPromptSection_eq_spec (semantic : List SemanticMemory)
    (procedural : List ProceduralMemory) (episodic : List EpisodicMemory)
    (_h : ¬(semantic = [] ∧ procedural = [] ∧ episodic = [])) :
    buildMemoryPromptSection semantic procedural episodic =
      promptSpec semantic procedural episodic := by
  simp only [buildMemoryPromptSection, promptSpec, semanticLine_eq, proceduralLine_eq,
    episodicLine_eq, jsSliceNeg10_eq_lastN10]

/-- Witness for claim C9 at a concrete non-empty store. -/
theorem buildMemoryPromptSection_eq_spec_witness :
    ¬(([] : List SemanticMemory) = [] ∧ ([procOther] : List ProceduralMemory) = [] ∧
        ([] : List EpisodicMemory) = []) ∧
    buildMemoryPromptSection [] [procOther] [] = promptSpec [] [procOther] [] :=
  ⟨by decide, buildMemoryPromptSection_eq_spec [] [procOther] [] (by decide)⟩

/-! ## Claim C7 -/

/-- The demonstration record of claim C7: text "deploy the service", tags
`["infra"]`. -/
def semDeploy : SemanticMemory :=
  { id := "sem_001", category := .preference, text := "deploy the service",
    tags := ["infra"], created := "c", sourceSession := "s" }

/-- Lemma: `jsToLower` distributes over string append. -/
theorem jsToLower_append (a b : String) : jsToLower (a ++ b) = jsToLower a ++ jsToLower b := by
  apply String.ext
  simp [jsToLower, String.data_append]

/-- Lower-casing fixes the single-space separator. -/
theorem jsToLower_space : jsToLower " " = " " := rfl

/-- Claim C7: `searchMemories` equals the spec-side description (lower-cased
whitespace-split tokens, conjunctive substring matching against the
lower-cased concatenation of projected text and space-joined tags, collection
order preserved); in particular the record with text "deploy the service" and
tags `["infra"]` matches the query "deploy infra" but not "deploy database". -/
theorem searchMemories_eq_searchSpec :
    (∀ (T : Type) [HasTags T] (memories : List T) (query : String)
        (getText : T → String),
       searchMemories memories query getText = searchSpec memories query getText) ∧
    searchMemories [semDeploy] "deploy infra" (fun m => m.text) = [semDeploy] ∧
    searchMemories [semDeploy] "deploy database" (fun m => m.text) = [] := by
  refine ⟨?_, by decide, by decide⟩
  intro T inst memories query getText
  simp only [searchMemories, searchSpec]
  apply List.filter_congr
  intro m _
  simp only [jsToLower_append, jsToLower_space]

/-! ## Claim C5 -/

/-- Computation of the semantic write branch when a duplicate is found. -/
theorem memoryWriteSemantic_found {store : List SemanticMemory} {category : Category}
    {text : String} {tags? : Option (List String)} {now sid : String} {ex : SemanticMemory}
    (h : text ≠ "")
    (hf : store.find? (fun m => m.category == category
      && jsToLower m.text == jsToLower text) = some ex) :
    memoryWriteSemantic store (some category) (some text) tags? now sid =
      { text := "This semantic memory already exists [" ++ ex.id ++ "]."
        details := some (.duplicate, ex.id), store := store, saved := false } := by
  simp only [memoryWriteSemantic]
  rw [if_neg h, hf]

/-- Computation of the semantic write branch when no duplicate is found. -/
theorem memoryWriteSemantic_notFound {store : List SemanticMemory} {category : Category}
    {text : String} {tags? : Option (List String)} {now sid : String}
    (h : text ≠ "")
    (hf : store.find? (fun m => m.category == category
      && jsToLower m.text == jsToLower text) = none) :
    memoryWriteSemantic store (some category) (some text) tags? now sid =
      { text := "Saved semantic memory [" ++ generateId "sem" store ++ "] ("
                  ++ category.str ++ "): \"" ++ text ++ "\"."
        details := some (.created, generateId "sem" store)
        store := store ++ [{ id := generateId "sem" store, category := category,
                             text := text, tags := tags?.getD [],
                             created := now, sourceSession := sid }]
        saved := true } := by
  simp only [memoryWriteSemantic]
  rw [if_neg h, hf]

/-- Claim C5: writing a fact and then writing a second fact with identical
category and case-insensitively identical non-empty text — the two texts
`text1` and `text2` need only lower-case to the same string, they may differ
in case — yields the same identifier on both calls, a duplicate signal and no
save on the second call, and an unchanged collection length after the second
call. -/
theorem memoryWriteSemantic_duplicate_second_call (store : List SemanticMemory)
    (category : Category) (text1 text2 : String) (tags1 tags2 : Option (List String))
    (now1 sid1 now2 sid2 : String) (h1 : text1 ≠ "") (h2 : text2 ≠ "")
    (hci : jsToLower text2 = jsToLower text1) :
    ∃ i,
      ((memoryWriteSemantic store (some category) (some text1) tags1 now1 sid1).details
          = some (.created, i) ∨
       (memoryWriteSemantic store (some category) (some text1) tags1 now1 sid1).details
          = some (.duplicate, i)) ∧
      (memoryWriteSemantic
          (memoryWriteSemantic store (some category) (some text1) tags1 now1 sid1).store
          (some category) (some text2) tags2 now2 sid2).details = some (.duplicate, i) ∧
      (memoryWriteSemantic
          (memoryWriteSemantic store (some category) (some text1) tags1 now1 sid1).store
          (some category) (some text2) tags2 now2 sid2).saved = false ∧
      (memoryWriteSemantic
          (memoryWriteSemantic store (some category) (some text1) tags1 now1 sid1).store
          (some category) (some text2) tags2 now2 sid2).store.length =
        (memoryWriteSemantic store (some category) (some text1) tags1 now1 sid1).store.length
    := by
  cases hfind : List.find?
      (fun m => m.category == category && jsToLower m.text == jsToLower text1) store with
  | some ex =>
    have hfind2 : List.find?
        (fun m => m.category == category && jsToLower m.text == jsToLower text2) store
        = some ex := by
      rw [hci]
      exact hfind
    rw [memoryWriteSemantic_found h1 hfind]
    rw [memoryWriteSemantic_found h2 hfind2]
    exact ⟨ex.id, Or.inr rfl, rfl, rfl, rfl⟩
  | none =>
    rw [memoryWriteSemantic_notFound h1 hfind]
    have hnew : List.find?
        (fun m => m.category == category && jsToLower m.text == jsToLower text2)
        (store ++ [{ id := generateId "sem" store, category := category, text := text1,
                     tags := tags1.getD [], created := now1, sourceSession := sid1 }]) =
        some { id := generateId "sem" store, category := category, text := text1,
               tags := tags1.getD [], created := now1, sourceSession := sid1 } := by
      rw [hci, List.find?_append, hfind]
      simp [List.find?_cons]
    rw [memoryWriteSemantic_found h2 hnew]
    exact ⟨generateId "sem" store, Or.inl rfl, rfl, rfl, rfl⟩

/-- First demonstration call for the C5 witness: text "use tabs". -/
def semDemo1 : SemWriteOut :=
  memoryWriteSemantic [] (some .preference) (some "use tabs") none "n1" "s1"

/-- Second demonstration call for the C5 witness: same category, text
"USE Tabs" — identical to the first text only after lower-casing. -/
def semDemo2 : SemWriteOut :=
  memoryWriteSemantic semDemo1.store (some .preference) (some "USE Tabs") none "n2" "s2"

/-- Witness for claim C5 at a concrete input whose two texts differ in case. -/
theorem memoryWriteSemantic_duplicate_second_call_witness :
    "use tabs" ≠ "" ∧ "USE Tabs" ≠ "" ∧ jsToLower "USE Tabs" = jsToLower "use tabs" ∧
    ∃ i,
      (semDemo1.details = some (.created, i) ∨ semDemo1.details = some (.duplicate, i)) ∧
      semDemo2.details = some (.duplicate, i) ∧
      semDemo2.saved = false ∧
      semDemo2.store.length = semDemo1.store.length :=
  ⟨by decide, by decide, by decide,
   memoryWriteSemantic_duplicate_second_call [] .preference "use tabs" "USE Tabs" none none
     "n1" "s1" "n2" "s2" (by decide) (by decide) (by decide)⟩

/-! ## Claim C6 -/

/-- Claim C6 counterexample: with input `[efA1{a}, efB{b}, efA2{a}]` the
cluster containing `efA1` is created first, yet the output is
`[efB, merged(efA1, efA2)]` — not the cluster-creation order
`[merged(efA1, efA2), efB]` — because absorbing `efA2` deletes and re-inserts
the cluster at the end of the map. -/
theorem compact_not_creation_order :
    compactEpisodicMemories [efA1, efB, efA2] = [efB, efMerged] ∧
    compactEpisodicMemories [efA1, efB, efA2] ≠ [efMerged, efB] := by
  constructor <;> decide

/-- Claim C6 (amended): clusters of size 1 pass through unchanged — every
output record is either literally one of the input records or a consolidated
record carrying the `"Consolidated: "` marker — and the output order follows
the final insertion order of the cluster map, in which a cluster is moved to
the end whenever it absorbs a record (so for `[efA1{a}, efB{b}, efA2{a}]` the
output is `[efB, merged(efA1, efA2)]`, not cluster-creation order). -/
theorem compact_output_provenance :
    (∀ (ms : List EpisodicMemory) (o : EpisodicMemory), o ∈ compactEpisodicMemories ms →
       o ∈ ms ∨ ∃ s, o.summary = "Consolidated: " ++ s) ∧
    compactEpisodicMemories [efA1, efB, efA2] = [efB, efMerged] := by
  constructor
  · intro ms o ho
    unfold compactEpisodicMemories at ho
    split at ho
    · left; exact ho
    · obtain ⟨kg, hkg, ho'⟩ := mem_flatMapL.mp ho
      by_cases hlen : kg.2.length ≤ 1
      · rw [if_pos hlen] at ho'
        rcases mem_foldl_placeRecord ms [] o kg hkg ho' with ⟨kg', h', _⟩ | hmem
        · simp at h'
        · left; exact hmem
      · rw [if_neg hlen] at ho'
        simp only [List.mem_singleton] at ho'
        subst ho'
        right
        exact ⟨_, rfl⟩
  · decide

/-- Witness for claim C6's universal part at a concrete input. -/
theorem compact_output_provenance_witness :
    efB ∈ compactEpisodicMemories [efA1, efB, efA2] ∧
    (efB ∈ [efA1, efB, efA2] ∨ ∃ s, efB.summary = "Consolidated: " ++ s) :=
  ⟨by decide, compact_output_provenance.1 [efA1, efB, efA2] efB (by decide)⟩

/-! ## Claim C8 -/

/-- Lemma: `findIndexJS` misses when no element satisfies the predicate. -/
theorem findIndexJS_eq_none {p : α → Bool} {l : List α} (h : ∀ a ∈ l, p a = false) :
    findIndexJS p l = none := by
  induction l with
  | nil => rfl
  | cons a tl ih =>
    simp [findIndexJS, h a (List.mem_cons_self a tl),
      ih fun x hx => h x (List.mem_cons_of_mem _ hx)]

/-- Claim C8: deleting an identifier not present in any of the three
collections returns `deleted: false`, performs no save, and leaves all three
collections exactly as they were. -/
theorem memoryDelete_not_found (procs : List ProceduralMemory) (eps : List EpisodicMemory)
    (sems : List SemanticMemory) (targetId : String)
    (h1 : ∀ m ∈ procs, m.id ≠ targetId) (h2 : ∀ m ∈ eps, m.id ≠ targetId)
    (h3 : ∀ m ∈ sems, m.id ≠ targetId) :
    memoryDelete procs eps sems targetId =
      { text := "No memory found with ID \"" ++ targetId ++ "\"."
        deleted := false, procedural := procs, episodic := eps, semantic := sems,
        saved := false } := by
  unfold memoryDelete
  rw [findIndexJS_eq_none (fun m hm => by simp [h1 m hm]),
      findIndexJS_eq_none (fun m hm => by simp [h2 m hm]),
      findIndexJS_eq_none (fun m hm => by simp [h3 m hm])]

/-- Witness for claim C8 at a concrete input. -/
theorem memoryDelete_not_found_witness :
    (∀ m ∈ ([] : List ProceduralMemory), m.id ≠ "zzz") ∧
    (∀ m ∈ [epA], m.id ≠ "zzz") ∧
    (∀ m ∈ ([] : List SemanticMemory), m.id ≠ "zzz") ∧
    memoryDelete [] [epA] [] "zzz" =
      { text := "No memory found with ID \"zzz\"."
        deleted := false, procedural := [], episodic := [epA], semantic := [],
        saved := false } :=
  ⟨by decide, by decide, by decide,
   memoryDelete_not_found [] [epA] [] "zzz" (by decide) (by decide) (by decide)⟩

/-! ## Claim C10 -/

/-- Effect of the find-and-mutate update path on a split collection. -/
theorem updateFirstProc_split (name trigger : String) (steps tags : List String)
    (now : String) (pre post : List ProceduralMemory) (m : ProceduralMemory)
    (hm : m.name = name) (hpre : ∀ x ∈ pre, x.name ≠ name) :
    updateFirstProc name trigger steps tags now (pre ++ m :: post) =
      some (pre ++ { m with
                     steps := steps
                     trigger := trigger
                     tags := jsDedup (m.tags ++ tags)
                     updated := now } :: post, m.id) := by
  induction pre with
  | nil =>
    simp only [List.nil_append]
    unfold updateFirstProc
    rw [if_pos (by simp [hm])]
  | cons x xs ih =>
    simp only [List.cons_append]
    unfold updateFirstProc
    rw [if_neg (by simp [hpre x (List.mem_cons_self x xs)]),
        ih fun y hy => hpre y (List.mem_cons_of_mem _ hy)]
    rfl

/-- Computation of the procedural write branch on the update path. -/
theorem memoryWriteProcedural_updatePath {store store1 : List ProceduralMemory}
    {name trigger : String} {steps tags : List String} {now sid exId : String}
    (hval : ¬(name = "" ∨ trigger = "" ∨ steps = []))
    (hu : updateFirstProc name trigger steps tags now store = some (store1, exId)) :
    memoryWriteProcedural store (some name) (some trigger) (some steps) (some tags) now sid =
      { text := "Updated procedural memory [" ++ exId ++ "] \"" ++ name ++ "\"."
        details := some (.updated, exId), store := store1, saved := true } := by
  simp only [memoryWriteProcedural, Option.getD_some]
  rw [if_neg hval, hu]

/-- Claim C10: a procedural `memory_write` whose name matches an existing
procedure (the update path) keeps the matched record's `id`, `created` and
`sourceSession`, changes the collection length by nothing, and leaves every
other record unchanged. -/
theorem memoryWriteProcedural_update_frame (pre post : List ProceduralMemory)
    (m : ProceduralMemory) (name trigger : String) (steps tags : List String)
    (now sid : String) (hn : name ≠ "") (ht : trigger ≠ "") (hs : steps ≠ [])
    (hm : m.name = name) (hpre : ∀ x ∈ pre, x.name ≠ name) :
    ∃ m',
      (memoryWriteProcedural (pre ++ m :: post) (some name) (some trigger) (some steps)
          (some tags) now sid).store = pre ++ m' :: post ∧
      m'.id = m.id ∧ m'.created = m.created ∧ m'.sourceSession = m.sourceSession ∧
      (memoryWriteProcedural (pre ++ m :: post) (some name) (some trigger) (some steps)
          (some tags) now sid).store.length = (pre ++ m :: post).length ∧
      (memoryWriteProcedural (pre ++ m :: post) (some name) (some trigger) (some steps)
          (some tags) now sid).details = some (.updated, m.id) := by
  have hval : ¬(name = "" ∨ trigger = "" ∨ steps = []) := by
    simp [hn, ht, hs]
  rw [memoryWriteProcedural_updatePath hval
    (updateFirstProc_split name trigger steps tags now pre post m hm hpre)]
  refine ⟨{ m with
            steps := steps
            trigger := trigger
            tags := jsDedup (m.tags ++ tags)
            updated := now }, rfl, rfl, rfl, rfl, ?_, rfl⟩
  simp

/-- The demonstration update call of the C10 witness. -/
def procUpdateDemo : ProcWriteOut :=
  memoryWriteProcedural ([procOther] ++ procTarget :: []) (some "build") (some "when asked")
    (some ["step1"]) (some ["y"]) "now" "sid"

/-- Witness for claim C10 at a concrete input. -/
theorem memoryWriteProcedural_update_frame_witness :
    ("build" : String) ≠ "" ∧ ("when asked" : String) ≠ "" ∧
    (["step1"] : List String) ≠ [] ∧ procTarget.name = "build" ∧
    (∀ x ∈ [procOther], x.name ≠ "build") ∧
    ∃ m',
      procUpdateDemo.store = [procOther] ++ m' :: [] ∧
      m'.id = procTarget.id ∧ m'.created = procTarget.created ∧
      m'.sourceSession = procTarget.sourceSession ∧
      procUpdateDemo.store.length = ([procOther] ++ procTarget :: []).length ∧
      procUpdateDemo.details = some (.updated, procTarget.id) :=
  ⟨by decide, by decide, by decide, by decide, by decide,
   memoryWriteProcedural_update_frame [procOther] [] procTarget "build" "when asked"
     ["step1"] ["y"] "now" "sid" (by decide) (by decide) (by decide) (by decide) (by decide)⟩

end Zpi
